import Mathlib

/-!
# gerrit-stats: verification of the statistics aggregator

Shallow embedding of the `gerrit-stats` tool (src/review.rs, src/main.rs).

Modelling conventions:
* Rust panics (`expect`, `HashMap` index panics, `u32` division by zero)
  are modelled with `Except String`, carrying the corresponding panic
  message, so that distinct fatal paths stay distinguishable.
* The `BTreeMap`/`HashMap` values are modelled as association lists with
  distinct keys; `updateEntry` mirrors `entry(k).or_insert_with(d)`
  followed by a mutation of the entry.
* `toml::value::Datetime` values are consumed by the code only through
  `timestamp("00:00:00")` / `timestamp("23:59:59")` (a chrono library
  conversion, external to this repository); a configured date range is
  therefore embedded directly as its pair of epoch-second bounds
  `(from_ts, to_ts) : Int × Int`.
* Rust `u32` counters are modelled as `Nat` (the spec treats them as
  non-negative integers; no claim concerns 32-bit overflow).
-/

namespace GerritStats

/-- `User` from src/review.rs. -/
structure User where
  name : String
  username : String
deriving Repr, DecidableEq

/-- `Comment` from src/review.rs. -/
structure Comment where
  reviewer : User
  message : String
deriving Repr, DecidableEq

/-- `Approval` from src/review.rs: the Rust field `type` is serde-renamed
`review_type`; `by` is a Lean keyword, embedded as `by_user`. -/
structure Approval where
  review_type : String
  value : String
  granted_on : Int
  by_user : User
deriving Repr, DecidableEq

/-- `PatchSet` from src/review.rs. -/
structure PatchSet where
  approvals : Option (List Approval)
  comments : Option (List Comment)
deriving Repr, DecidableEq

/-- `Review` from src/review.rs. -/
structure Review where
  project : String
  branch : String
  id : String
  number : Int
  owner : User
  commit_message : String
  comments : List Comment
  patch_sets : List PatchSet
deriving Repr, DecidableEq

/-- `Stats` from src/main.rs: the six per-cell counters. -/
structure Stats where
  changes : Nat
  approvals : Nat
  comments_made : Nat
  comments_received : Nat
  commit_words : Nat
  patch_sets : Nat
deriving Repr, DecidableEq

/-- `Stats::new()` (all counters zero). -/
def Stats.new : Stats :=
  ⟨0, 0, 0, 0, 0, 0⟩

/-- Association-list lookup: first entry with the given key. -/
def lookupKey {α : Type} : List (String × α) → String → Option α
  | [], _ => none
  | (k', v) :: t, k => if k' = k then some v else lookupKey t k

/-- `entry(k).or_insert_with(|| d)` followed by mutating the entry with `f`:
update in place when the key is present, append `(k, f d)` otherwise. -/
def updateEntry {α : Type} : List (String × α) → String → α → (α → α) → List (String × α)
  | [], k, d, f => [(k, f d)]
  | (k', v) :: t, k, d, f =>
    if k' = k then (k', f v) :: t else (k', v) :: updateEntry t k d f

/-- The keys of an association list, in order. -/
def keys {α : Type} : List (String × α) → List String
  | [] => []
  | (k, _) :: t => k :: keys t

/-- `BTreeMap<String, Stats>`: one user's per-repository cells. -/
abbrev StatsMap := List (String × Stats)

/-- `UserStatistics = BTreeMap<String, BTreeMap<String, Stats>>`. -/
abbrev UserStatistics := List (String × StatsMap)

/-- `Review::is_within_date` (src/review.rs:66-88): takes the owner's date
window as epoch bounds; `.last().expect(..)` and `.approvals.expect(..)`
become the corresponding error results. -/
def Review.is_within_date (r : Review) (fromTs toTs : Int) : Except String Bool :=
  match r.patch_sets.getLast? with
  | none => Except.error "Failed to get last patch set"
  | some patch =>
    match patch.approvals with
    | none => Except.error "Failed to get approval change"
    | some aps =>
      Except.ok (aps.any fun a =>
        a.review_type == "SUBM"
          && decide (fromTs ≤ a.granted_on) && decide (a.granted_on ≤ toTs))

/-- `Review::repository_name` (src/review.rs:90-92). -/
def Review.repository_name (r : Review) : String :=
  r.project

/-- One `+= 1` step of the `comments_made` counting map
(`*user_comments.entry(u).or_insert(0) += 1`). -/
def bumpCount (m : List (String × Nat)) (k : String) : List (String × Nat) :=
  updateEntry m k 0 (fun n => n + 1)

/-- `Review::comments_made` (src/review.rs:94-112): per-user counts of
patch-set comments whose reviewer is configured and is not the owner. -/
def Review.comments_made (r : Review) (users : List String) : List (String × Nat) :=
  r.patch_sets.foldl
    (fun acc patch =>
      (patch.comments.getD []).foldl
        (fun acc c =>
          if users.contains c.reviewer.username
              && c.reviewer.username != r.owner.username then
            bumpCount acc c.reviewer.username
          else acc)
        acc)
    []

/-- `Review::comments_received` (src/review.rs:114-124): total number of
patch-set comments. -/
def Review.comments_received (r : Review) : Nat :=
  r.patch_sets.foldl (fun acc patch => acc + (patch.comments.getD []).length) 0

/-- `Review::approvals` (src/review.rs:126-147): usernames of configured
users with a "Code-Review" value "2" approval record on the last patch set,
one list element per matching record. -/
def Review.approvals (r : Review) (users : List String) : Except String (List String) :=
  match r.patch_sets.getLast? with
  | none => Except.error "Failed to get last patch set"
  | some patch =>
    match patch.approvals with
    | none => Except.error "Failed to get approval change"
    | some aps =>
      Except.ok ((aps.filter fun a =>
        a.review_type == "Code-Review" && a.value == "2"
          && users.contains a.by_user.username).map
            fun a => a.by_user.username)

/-- `Review::patch_set_count` (src/review.rs:149-151). -/
def Review.patch_set_count (r : Review) : Nat :=
  r.patch_sets.length

/-- Number of maximal non-whitespace runs in a character list; the flag
records whether the previous character was inside a run. -/
def countWordsAux : List Char → Bool → Nat
  | [], _ => 0
  | c :: cs, inWord =>
    if c.isWhitespace then countWordsAux cs false
    else (if inWord then 0 else 1) + countWordsAux cs true

/-- `Review::commit_message_words` (src/review.rs:153-155):
`split_whitespace().count()` — the number of maximal whitespace-free runs
(whitespace per `Char.isWhitespace`). -/
def Review.commit_message_words (r : Review) : Nat :=
  countWordsAux r.commit_message.data false

/-- `add_stats` (src/main.rs:188-200): bump a repository cell for the
review's owner. -/
def add_stats (stats : StatsMap) (repo : String)
    (received patches words : Nat) : StatsMap :=
  updateEntry stats repo Stats.new fun s =>
    { s with
        changes := s.changes + 1
        comments_received := s.comments_received + received
        patch_sets := s.patch_sets + patches
        commit_words := s.commit_words + words }

/-- Body of the commenter loop (src/main.rs:228-242) for one
`(user, comment_count)` pair of `made`. -/
def addCommentsFor (repo : String) (stats : UserStatistics)
    (p : String × Nat) : UserStatistics :=
  updateEntry stats p.1 [] fun us =>
    updateEntry
      (updateEntry us "All" Stats.new fun s =>
        { s with comments_made := s.comments_made + p.2 })
      repo Stats.new fun s =>
        { s with comments_made := s.comments_made + p.2 }

/-- Body of the approver loop (src/main.rs:244-258) for one approver
username. -/
def addApprovalFor (repo : String) (stats : UserStatistics)
    (u : String) : UserStatistics :=
  updateEntry stats u [] fun us =>
    updateEntry
      (updateEntry us "All" Stats.new fun s =>
        { s with approvals := s.approvals + 1 })
      repo Stats.new fun s =>
        { s with approvals := s.approvals + 1 }

/-- One iteration of the review loop of `collect_stats` (src/main.rs:206-259):
the unchecked `dates[&owner]` index is the "key not found" error; the
eligibility test and derived facts follow, then the owner, commenter and
approver updates in source order. -/
def processReview (dates : List (String × (Int × Int))) (users : List String)
    (stats : UserStatistics) (r : Review) : Except String UserStatistics :=
  match lookupKey dates r.owner.username with
  | none => Except.error "key not found"
  | some (fromTs, toTs) =>
    match r.is_within_date fromTs toTs with
    | Except.error e => Except.error e
    | Except.ok false => Except.ok stats
    | Except.ok true =>
      match r.approvals users with
      | Except.error e => Except.error e
      | Except.ok approvers =>
        let repo := r.repository_name
        let made := r.comments_made users
        let received := r.comments_received
        let patchSets := r.patch_set_count
        let words := r.commit_message_words
        let stats := updateEntry stats r.owner.username [] fun us =>
          add_stats (add_stats us "All" received patchSets words)
            repo received patchSets words
        let stats := made.foldl (addCommentsFor repo) stats
        let stats := approvers.foldl (addApprovalFor repo) stats
        Except.ok stats

/-- `collect_stats` (src/main.rs:187-262): fold the review loop over all
reviews, starting from the empty mapping; any panic aborts the run. -/
def collect_stats (dates : List (String × (Int × Int))) (users : List String)
    (reviews : List Review) : Except String UserStatistics :=
  reviews.foldlM (processReview dates users) []

/-- `get_average_stats` (src/main.rs:264-286): sum every user's "All" cell
(panicking when one is missing), then divide each counter by the number of
users (`u32` division, truncating; division by zero panics). -/
def get_average_stats (stats : UserStatistics) : Except String Stats :=
  match stats.foldlM
      (fun (acc : Stats) (p : String × StatsMap) =>
        match lookupKey p.2 "All" with
        | none => Except.error "Failed to get All row"
        | some repo =>
          Except.ok
            { changes := acc.changes + repo.changes
              approvals := acc.approvals + repo.approvals
              comments_made := acc.comments_made + repo.comments_made
              comments_received := acc.comments_received + repo.comments_received
              commit_words := acc.commit_words + repo.commit_words
              patch_sets := acc.patch_sets + repo.patch_sets })
      Stats.new with
  | Except.error e => Except.error e
  | Except.ok avg =>
    let count := stats.length
    if count = 0 then Except.error "attempt to divide by zero"
    else
      Except.ok
        { changes := avg.changes / count
          approvals := avg.approvals / count
          comments_made := avg.comments_made / count
          comments_received := avg.comments_received / count
          commit_words := avg.commit_words / count
          patch_sets := avg.patch_sets / count }

/-- Reading a cell of a `StatsMap`, a missing cell reading as all-zero. -/
def cellAt (us : StatsMap) (k : String) : Stats :=
  (lookupKey us k).getD Stats.new

/-- Reading a cell of a `UserStatistics` mapping, missing entries reading
as all-zero. -/
def cellAt2 (st : UserStatistics) (u k : String) : Stats :=
  cellAt ((lookupKey st u).getD []) k

/-- Indicator of a decidable proposition, as a `Nat`. -/
def ind (c : Prop) [Decidable c] : Nat :=
  if c then 1 else 0

/-- Number of patch-set comments of `r` by user `v` that survive the
`comments_made` filter (configured commenter, not the owner). -/
def madeCount (r : Review) (users : List String) (v : String) : Nat :=
  r.patch_sets.foldl
    (fun acc patch =>
      acc + ((patch.comments.getD []).countP fun c =>
        users.contains c.reviewer.username
          && c.reviewer.username != r.owner.username
          && c.reviewer.username == v))
    0

/-- Sum of one counter over the non-"All" cells of one user's map. -/
def sumNonAll (us : StatsMap) (F : Stats → Nat) : Nat :=
  ((us.filter fun p => p.1 != "All").map fun p => F p.2).sum

/-- One user's map is balanced for counter `F`: the "All" cell carries the
sum of the non-"All" cells. -/
def balancedFor (us : StatsMap) (F : Stats → Nat) : Prop :=
  F (cellAt us "All") = sumNonAll us F

/-- Balanced in all six counters. -/
def balancedSix (us : StatsMap) : Prop :=
  balancedFor us (fun s => s.changes) ∧
  balancedFor us (fun s => s.approvals) ∧
  balancedFor us (fun s => s.comments_made) ∧
  balancedFor us (fun s => s.comments_received) ∧
  balancedFor us (fun s => s.commit_words) ∧
  balancedFor us (fun s => s.patch_sets)

/-- The invariant of one user's map: an "All" entry exists and every
counter is balanced. -/
def goodMap (us : StatsMap) : Prop :=
  (lookupKey us "All").isSome = true ∧ balancedSix us

/-- Sum of one counter over all users' "All" cells. -/
def allField (stats : UserStatistics) (F : Stats → Nat) : Nat :=
  (stats.map fun p => F (cellAt p.2 "All")).sum

/-! ### Concrete inputs used by witnesses and counterexamples -/

def uAlice : User := ⟨"Alice A", "alice"⟩

def uBob : User := ⟨"Bob B", "bob"⟩

def uCarol : User := ⟨"Carol C", "carol"⟩

/-- A submit approval at the given epoch second. -/
def apSubm (ts : Int) : Approval := ⟨"SUBM", "1", ts, uAlice⟩

/-- A maximum Code-Review approval by `u`. -/
def apCR (u : User) : Approval := ⟨"Code-Review", "2", 4, u⟩

def psMain : PatchSet :=
  ⟨some [apSubm 5, apCR uBob], some [⟨uBob, "nit"⟩, ⟨uAlice, "reply"⟩]⟩

/-- An eligible review: owner alice, one patch set, SUBM at 5,
Code-Review 2 by bob, one comment by bob and one self-comment. -/
def rMain : Review :=
  ⟨"proj", "master", "I1", 1, uAlice, "Fix the bug now", [], [psMain]⟩

/-- A review whose SUBM approval is outside the [0, 10] window. -/
def rOut : Review :=
  { rMain with patch_sets := [⟨some [apSubm 50], none⟩] }

/-- A review whose last patch set has no approvals collection. -/
def rNoAps : Review :=
  { rMain with patch_sets := [⟨none, none⟩] }

/-- A review whose last patch set holds two identical Code-Review 2
approval records by bob. -/
def rDup : Review :=
  { rMain with patch_sets := [⟨some [apSubm 5, apCR uBob, apCR uBob], none⟩] }

/-- A review whose repository is literally named "All". -/
def rAllProj : Review :=
  { rMain with project := "All", patch_sets := [⟨some [apSubm 5], none⟩] }

/-- A review owned by an unconfigured user. -/
def rCarolOwned : Review :=
  { rMain with owner := uCarol }

def dmap : List (String × (Int × Int)) := [("alice", (0, 10)), ("bob", (0, 10))]

def umap : List String := ["alice", "bob"]

/-- A concrete two-user mapping for exercising the average row. -/
def c6stats : UserStatistics :=
  [("alice", [("All", ⟨3, 1, 0, 4, 9, 5⟩)]), ("bob", [("All", ⟨2, 0, 7, 0, 0, 2⟩)])]

/-- The mapping produced by aggregating the single eligible review `rMain`. -/
def c8stats : UserStatistics :=
  (collect_stats dmap umap [rMain]).toOption.getD []

/-- Alice's per-repository cells inside `c8stats`. -/
def c8us : StatsMap :=
  (lookupKey c8stats "alice").getD []

/-! ### Association-list lemmas -/

theorem lookupKey_updateEntry_self {α : Type} (m : List (String × α)) (k : String)
    (d : α) (f : α → α) :
    lookupKey (updateEntry m k d f) k = some (f ((lookupKey m k).getD d)) := by
  induction m with
  | nil => simp [updateEntry, lookupKey]
  | cons p t ih =>
    obtain ⟨k', v⟩ := p
    by_cases h : k' = k
    · simp [updateEntry, lookupKey, h]
    · simp [updateEntry, lookupKey, h, ih]

theorem lookupKey_updateEntry_ne {α : Type} (m : List (String × α)) (k k' : String)
    (d : α) (f : α → α) (h : k' ≠ k) :
    lookupKey (updateEntry m k d f) k' = lookupKey m k' := by
  have hkk' : ¬(k = k') := fun e => h e.symm
  induction m with
  | nil => simp [updateEntry, lookupKey, hkk']
  | cons p t ih =>
    obtain ⟨k'', v⟩ := p
    by_cases h2 : k'' = k
    · subst h2
      simp [updateEntry, lookupKey, hkk']
    · simp [updateEntry, lookupKey, h2, ih]

theorem cellAt_updateEntry_self (us : StatsMap) (k : String) (f : Stats → Stats) :
    cellAt (updateEntry us k Stats.new f) k = f (cellAt us k) := by
  simp [cellAt, lookupKey_updateEntry_self]

theorem cellAt_updateEntry_ne (us : StatsMap) (k k' : String) (d : Stats)
    (f : Stats → Stats) (h : k' ≠ k) :
    cellAt (updateEntry us k d f) k' = cellAt us k' := by
  simp [cellAt, lookupKey_updateEntry_ne us k k' d f h]

theorem userMap_updateEntry_self (st : UserStatistics) (u : String)
    (g : StatsMap → StatsMap) :
    (lookupKey (updateEntry st u [] g) u).getD [] = g ((lookupKey st u).getD []) := by
  simp [lookupKey_updateEntry_self]

theorem cellAt2_updateEntry_ne (st : UserStatistics) (u v : String)
    (g : StatsMap → StatsMap) (k : String) (h : v ≠ u) :
    cellAt2 (updateEntry st u [] g) v k = cellAt2 st v k := by
  simp [cellAt2, lookupKey_updateEntry_ne st u v [] g h]

theorem keys_updateEntry {α : Type} (m : List (String × α)) (k : String)
    (d : α) (f : α → α) :
    keys (updateEntry m k d f) = if k ∈ keys m then keys m else keys m ++ [k] := by
  induction m with
  | nil => simp [updateEntry, keys]
  | cons p t ih =>
    obtain ⟨k', v⟩ := p
    by_cases h2 : k' = k
    · subst h2
      simp [updateEntry, keys]
    · have h2' : ¬(k = k') := fun e => h2 e.symm
      by_cases h3 : k ∈ keys t
      · simp [updateEntry, keys, h2, h2', h3, ih]
      · simp [updateEntry, keys, h2, h2', h3, ih]

theorem nodupKeys_updateEntry {α : Type} (m : List (String × α)) (k : String)
    (d : α) (f : α → α) (h : (keys m).Nodup) :
    (keys (updateEntry m k d f)).Nodup := by
  rw [keys_updateEntry]
  by_cases h3 : k ∈ keys m
  · simpa [h3] using h
  · simp [h3, List.nodup_append, h, List.disjoint_singleton]

theorem lookupKey_eq_none {α : Type} (m : List (String × α)) (k : String)
    (h : k ∉ keys m) : lookupKey m k = none := by
  induction m with
  | nil => rfl
  | cons p t ih =>
    obtain ⟨k', v⟩ := p
    simp [keys] at h
    simp [lookupKey, Ne.symm h.1, ih h.2]

theorem ind_pos {c : Prop} [Decidable c] (h : c) : ind c = 1 := if_pos h

theorem ind_neg {c : Prop} [Decidable c] (h : ¬c) : ind c = 0 := if_neg h

/-- Reading any cell after the characteristic "bump `All`, then bump the
repository" double update of `collect_stats`. -/
theorem cellAt_pairUpdate (us : StatsMap) (repo : String) (f : Stats → Stats)
    (k : String) :
    cellAt (updateEntry (updateEntry us "All" Stats.new f) repo Stats.new f) k =
      (if k = repo then f else id) ((if k = "All" then f else id) (cellAt us k)) := by
  by_cases hk : k = repo
  · subst hk
    rw [cellAt_updateEntry_self]
    by_cases hk2 : k = "All"
    · subst hk2
      rw [cellAt_updateEntry_self]
      simp
    · rw [cellAt_updateEntry_ne _ _ _ _ _ hk2]
      simp [hk2]
  · by_cases hk2 : k = "All"
    · subst hk2
      rw [cellAt_updateEntry_ne _ _ _ _ _ hk, cellAt_updateEntry_self]
      simp [hk]
    · rw [cellAt_updateEntry_ne _ _ _ _ _ hk, cellAt_updateEntry_ne _ _ _ _ _ hk2]
      simp [hk, hk2]

theorem pair_apply_cm (s : Stats) (c1 c2 : Prop) [Decidable c1] [Decidable c2]
    (n : Nat) :
    (if c2 then (fun x : Stats => { x with comments_made := x.comments_made + n })
      else id)
      ((if c1 then (fun x : Stats => { x with comments_made := x.comments_made + n })
        else id) s) =
      { s with comments_made := s.comments_made + (ind c1 + ind c2) * n } := by
  by_cases h1 : c1 <;> by_cases h2 : c2 <;>
    simp [ind, h1, h2, Stats.mk.injEq] <;> omega

theorem pair_apply_ap (s : Stats) (c1 c2 : Prop) [Decidable c1] [Decidable c2] :
    (if c2 then (fun x : Stats => { x with approvals := x.approvals + 1 })
      else id)
      ((if c1 then (fun x : Stats => { x with approvals := x.approvals + 1 })
        else id) s) =
      { s with approvals := s.approvals + (ind c1 + ind c2) } := by
  by_cases h1 : c1 <;> by_cases h2 : c2 <;>
    simp [ind, h1, h2, Stats.mk.injEq] <;> omega

theorem pair_apply_own (s : Stats) (c1 c2 : Prop) [Decidable c1] [Decidable c2]
    (received patches words : Nat) :
    (if c2 then (fun x : Stats =>
        { x with
            changes := x.changes + 1
            comments_received := x.comments_received + received
            patch_sets := x.patch_sets + patches
            commit_words := x.commit_words + words })
      else id)
      ((if c1 then (fun x : Stats =>
          { x with
              changes := x.changes + 1
              comments_received := x.comments_received + received
              patch_sets := x.patch_sets + patches
              commit_words := x.commit_words + words })
        else id) s) =
      { s with
          changes := s.changes + (ind c1 + ind c2)
          comments_received := s.comments_received + (ind c1 + ind c2) * received
          patch_sets := s.patch_sets + (ind c1 + ind c2) * patches
          commit_words := s.commit_words + (ind c1 + ind c2) * words } := by
  by_cases h1 : c1 <;> by_cases h2 : c2 <;>
    simp [ind, h1, h2, Stats.mk.injEq] <;> omega

/-- Effect of one commenter update on an arbitrary cell: only
`comments_made` moves, by the comment count, and only at the commenting
user's "All" and repository keys. -/
theorem cellAt2_addCommentsFor (st : UserStatistics) (repo : String)
    (p : String × Nat) (v k : String) :
    cellAt2 (addCommentsFor repo st p) v k =
      { cellAt2 st v k with
          comments_made := (cellAt2 st v k).comments_made
            + ind (v = p.1) * (ind (k = "All") + ind (k = repo)) * p.2 } := by
  obtain ⟨u, n⟩ := p
  by_cases hv : v = u
  · subst hv
    simp only [cellAt2, addCommentsFor]
    rw [userMap_updateEntry_self, cellAt_pairUpdate, pair_apply_cm]
    simp [ind, Stats.mk.injEq]
  · simp only [addCommentsFor]
    rw [cellAt2_updateEntry_ne _ _ _ _ _ hv]
    simp [ind, hv]

/-- Effect of one approver update on an arbitrary cell: only `approvals`
moves, by one, and only at the approver's "All" and repository keys. -/
theorem cellAt2_addApprovalFor (st : UserStatistics) (repo u : String)
    (v k : String) :
    cellAt2 (addApprovalFor repo st u) v k =
      { cellAt2 st v k with
          approvals := (cellAt2 st v k).approvals
            + ind (v = u) * (ind (k = "All") + ind (k = repo)) } := by
  by_cases hv : v = u
  · subst hv
    simp only [cellAt2, addApprovalFor]
    rw [userMap_updateEntry_self, cellAt_pairUpdate, pair_apply_ap]
    simp [ind, Stats.mk.injEq]
  · simp only [addApprovalFor]
    rw [cellAt2_updateEntry_ne _ _ _ _ _ hv]
    simp [ind, hv]

/-- Effect of the owner update (`add_stats` on "All" then on the
repository) on an arbitrary cell. -/
theorem cellAt2_ownerUpdate (st : UserStatistics) (o repo : String)
    (received patches words : Nat) (v k : String) :
    cellAt2 (updateEntry st o [] fun us =>
        add_stats (add_stats us "All" received patches words)
          repo received patches words) v k =
      { cellAt2 st v k with
          changes := (cellAt2 st v k).changes
            + ind (v = o) * (ind (k = "All") + ind (k = repo))
          comments_received := (cellAt2 st v k).comments_received
            + ind (v = o) * (ind (k = "All") + ind (k = repo)) * received
          patch_sets := (cellAt2 st v k).patch_sets
            + ind (v = o) * (ind (k = "All") + ind (k = repo)) * patches
          commit_words := (cellAt2 st v k).commit_words
            + ind (v = o) * (ind (k = "All") + ind (k = repo)) * words } := by
  by_cases hv : v = o
  · subst hv
    simp only [cellAt2, add_stats]
    rw [userMap_updateEntry_self, cellAt_pairUpdate, pair_apply_own]
    simp [ind, Stats.mk.injEq]
  · rw [cellAt2_updateEntry_ne _ _ _ _ _ hv]
    simp [ind, hv]

theorem lookupKey_bumpCount (m : List (String × Nat)) (u v : String) :
    (lookupKey (bumpCount m u) v).getD 0 = (lookupKey m v).getD 0 + ind (v = u) := by
  by_cases hv : v = u
  · subst hv
    simp only [bumpCount]
    rw [lookupKey_updateEntry_self]
    simp [ind]
  · simp only [bumpCount]
    rw [lookupKey_updateEntry_ne _ _ _ _ _ hv]
    simp [ind, hv]

theorem foldl_add_eq_sum {β : Type} (l : List β) (g : β → Nat) (c : Nat) :
    l.foldl (fun n x => n + g x) c = c + (l.map g).sum := by
  induction l generalizing c with
  | nil => simp
  | cons b t ih => simp [List.foldl_cons, ih, Nat.add_assoc]

theorem lookupKey_foldl_bump {β : Type} (l : List β) (p : β → Bool) (nm : β → String)
    (acc : List (String × Nat)) (v : String) :
    (lookupKey (l.foldl (fun a b => if p b then bumpCount a (nm b) else a) acc) v).getD 0
      = (lookupKey acc v).getD 0 + l.countP (fun b => p b && (nm b == v)) := by
  induction l generalizing acc with
  | nil => simp
  | cons b t ih =>
    rw [List.foldl_cons, List.countP_cons]
    by_cases hp : p b = true
    · rw [if_pos hp, ih, lookupKey_bumpCount]
      by_cases hv : v = nm b
      · simp [hp, hv, ind]
        omega
      · have hbv : (nm b == v) = false := by
          simp [Ne.symm hv]
        simp [hp, hbv, ind, hv]
    · rw [if_neg hp, ih]
      have hp' : p b = false := by
        simpa using hp
      simp [hp']

theorem nodupKeys_foldl_bump {β : Type} (l : List β) (p : β → Bool) (nm : β → String)
    (acc : List (String × Nat)) (h : (keys acc).Nodup) :
    (keys (l.foldl (fun a b => if p b then bumpCount a (nm b) else a) acc)).Nodup := by
  induction l generalizing acc with
  | nil => exact h
  | cons b t ih =>
    rw [List.foldl_cons]
    apply ih
    by_cases hp : p b = true
    · rw [if_pos hp]
      exact nodupKeys_updateEntry _ _ _ _ h
    · rwa [if_neg hp]

theorem nodupKeys_comments_made (r : Review) (users : List String) :
    (keys (r.comments_made users)).Nodup := by
  suffices h : ∀ (ps : List PatchSet) (acc : List (String × Nat)), (keys acc).Nodup →
      (keys (ps.foldl
        (fun acc patch =>
          (patch.comments.getD []).foldl
            (fun acc c =>
              if users.contains c.reviewer.username
                  && c.reviewer.username != r.owner.username then
                bumpCount acc c.reviewer.username
              else acc)
            acc)
        acc)).Nodup by
    exact h r.patch_sets [] (by simp [keys])
  intro ps
  induction ps with
  | nil => exact fun acc h => h
  | cons patch t ih =>
    intro acc h
    rw [List.foldl_cons]
    exact ih _ (nodupKeys_foldl_bump _ _ _ _ h)

theorem lookupKey_comments_made (r : Review) (users : List String) (v : String) :
    (lookupKey (r.comments_made users) v).getD 0 = madeCount r users v := by
  have h : ∀ (ps : List PatchSet) (acc : List (String × Nat)),
      (lookupKey (ps.foldl
        (fun acc patch =>
          (patch.comments.getD []).foldl
            (fun acc c =>
              if users.contains c.reviewer.username
                  && c.reviewer.username != r.owner.username then
                bumpCount acc c.reviewer.username
              else acc)
            acc)
        acc) v).getD 0
      = (lookupKey acc v).getD 0
        + (ps.map fun patch => (patch.comments.getD []).countP fun c =>
            (users.contains c.reviewer.username
              && c.reviewer.username != r.owner.username)
              && (c.reviewer.username == v)).sum := by
    intro ps
    induction ps with
    | nil => simp
    | cons patch t ih =>
      intro acc
      rw [List.foldl_cons, ih, lookupKey_foldl_bump]
      simp [Nat.add_assoc]
  have h2 := h r.patch_sets []
  simp only [Review.comments_made]
  rw [h2]
  simp only [madeCount]
  rw [foldl_add_eq_sum]
  simp [lookupKey, Bool.and_assoc]

theorem cellAt2_commentsFold (made : List (String × Nat)) (repo : String)
    (st : UserStatistics) (v k : String) (hnd : (keys made).Nodup) :
    cellAt2 (made.foldl (addCommentsFor repo) st) v k =
      { cellAt2 st v k with
          comments_made := (cellAt2 st v k).comments_made
            + (ind (k = "All") + ind (k = repo)) * (lookupKey made v).getD 0 } := by
  induction made generalizing st with
  | nil => simp [lookupKey]
  | cons p t ih =>
    obtain ⟨u, n⟩ := p
    simp only [keys] at hnd
    rw [List.foldl_cons, ih _ (List.nodup_cons.mp hnd).2, cellAt2_addCommentsFor]
    by_cases hv : v = u
    · subst hv
      have hnone : lookupKey t v = none :=
        lookupKey_eq_none _ _ (List.nodup_cons.mp hnd).1
      simp [lookupKey, hnone, ind]
    · simp [lookupKey, Ne.symm hv, ind_neg hv]

theorem cellAt2_approvalsFold (approvers : List String) (repo : String)
    (st : UserStatistics) (v k : String) :
    cellAt2 (approvers.foldl (addApprovalFor repo) st) v k =
      { cellAt2 st v k with
          approvals := (cellAt2 st v k).approvals
            + (ind (k = "All") + ind (k = repo)) * approvers.count v } := by
  induction approvers generalizing st with
  | nil => simp
  | cons u t ih =>
    rw [List.foldl_cons, ih, cellAt2_addApprovalFor]
    by_cases hv : v = u
    · subst hv
      simp [List.count_cons, ind, Stats.mk.injEq]
      ring
    · have hvu : (v == u) = false := by
        simp [hv]
      simp [List.count_cons, hvu, ind_neg hv, Ne.symm hv]

/-- Unfolding one eligible review inside `collect_stats`: owner update,
then commenter fold, then approver fold, in source order. -/
theorem processReview_eq (dates : List (String × (Int × Int))) (users : List String)
    (st : UserStatistics) (r : Review) (fromTs toTs : Int) (approvers : List String)
    (hd : lookupKey dates r.owner.username = some (fromTs, toTs))
    (hw : r.is_within_date fromTs toTs = Except.ok true)
    (hap : r.approvals users = Except.ok approvers) :
    processReview dates users st r = Except.ok
      (approvers.foldl (addApprovalFor r.repository_name)
        ((r.comments_made users).foldl (addCommentsFor r.repository_name)
          (updateEntry st r.owner.username [] fun us =>
            add_stats
              (add_stats us "All" r.comments_received r.patch_set_count
                r.commit_message_words)
              r.repository_name r.comments_received r.patch_set_count
              r.commit_message_words))) := by
  simp [processReview, hd, hw, hap]

theorem is_within_date_some (r : Review) (ps : PatchSet) (aps : List Approval)
    (fromTs toTs : Int)
    (hlast : r.patch_sets.getLast? = some ps) (hap : ps.approvals = some aps) :
    r.is_within_date fromTs toTs = Except.ok (aps.any fun a =>
      a.review_type == "SUBM"
        && decide (fromTs ≤ a.granted_on) && decide (a.granted_on ≤ toTs)) := by
  simp [Review.is_within_date, hlast, hap]

theorem within_true_iff (r : Review) (ps : PatchSet) (aps : List Approval)
    (fromTs toTs : Int)
    (hlast : r.patch_sets.getLast? = some ps) (hap : ps.approvals = some aps) :
    r.is_within_date fromTs toTs = Except.ok true ↔
      ∃ a ∈ aps, a.review_type = "SUBM"
        ∧ fromTs ≤ a.granted_on ∧ a.granted_on ≤ toTs := by
  rw [is_within_date_some r ps aps fromTs toTs hlast hap]
  simp [List.any_eq_true, Bool.and_eq_true, beq_iff_eq, decide_eq_true_iff,
    and_assoc, Except.ok.injEq]

theorem skip_of_within_false (dates : List (String × (Int × Int)))
    (users : List String) (st : UserStatistics) (r : Review) (fromTs toTs : Int)
    (hd : lookupKey dates r.owner.username = some (fromTs, toTs))
    (hw : r.is_within_date fromTs toTs = Except.ok false) :
    processReview dates users st r = Except.ok st := by
  simp [processReview, hd, hw]

theorem approvals_ok_of_within (r : Review) (fromTs toTs : Int) (b : Bool)
    (users : List String) (hw : r.is_within_date fromTs toTs = Except.ok b) :
    ∃ approvers, r.approvals users = Except.ok approvers := by
  cases hps : r.patch_sets.getLast? with
  | none => simp [Review.is_within_date, hps] at hw
  | some ps =>
    cases has : ps.approvals with
    | none => simp [Review.is_within_date, hps, has] at hw
    | some aps =>
      exact ⟨(aps.filter fun a =>
          a.review_type == "Code-Review" && a.value == "2"
            && users.contains a.by_user.username).map fun a => a.by_user.username,
        by simp [Review.approvals, hps, has]⟩

theorem is_within_date_error (r : Review) (fromTs toTs : Int) (e : String)
    (h : r.is_within_date fromTs toTs = Except.error e) :
    e = "Failed to get last patch set" ∨ e = "Failed to get approval change" := by
  cases hps : r.patch_sets.getLast? with
  | none =>
    simp [Review.is_within_date, hps] at h
    exact Or.inl h.symm
  | some ps =>
    cases has : ps.approvals with
    | none =>
      simp [Review.is_within_date, hps, has] at h
      exact Or.inr h.symm
    | some aps => simp [Review.is_within_date, hps, has] at h

theorem approvals_error (r : Review) (users : List String) (e : String)
    (h : r.approvals users = Except.error e) :
    e = "Failed to get last patch set" ∨ e = "Failed to get approval change" := by
  cases hps : r.patch_sets.getLast? with
  | none =>
    simp [Review.approvals, hps] at h
    exact Or.inl h.symm
  | some ps =>
    cases has : ps.approvals with
    | none =>
      simp [Review.approvals, hps, has] at h
      exact Or.inr h.symm
    | some aps => simp [Review.approvals, hps, has] at h

theorem processReview_ne_keyerror (dates : List (String × (Int × Int)))
    (users : List String) (acc : UserStatistics) (rv : Review)
    (hsome : (lookupKey dates rv.owner.username).isSome = true) :
    processReview dates users acc rv ≠ Except.error "key not found" := by
  obtain ⟨⟨fromTs, toTs⟩, hd⟩ := Option.isSome_iff_exists.mp hsome
  unfold processReview
  rw [hd]
  cases hw : rv.is_within_date fromTs toTs with
  | error e =>
    rcases is_within_date_error rv fromTs toTs e hw with h | h <;> simp [hw, h]
  | ok b =>
    cases b with
    | false => simp [hw]
    | true =>
      cases hap : rv.approvals users with
      | error e =>
        rcases approvals_error rv users e hap with h | h <;> simp [hw, hap, h]
      | ok aprv => simp [hw, hap]

theorem collect_stats_foldlM_ne_keyerror (dates : List (String × (Int × Int)))
    (users : List String) (reviews : List Review) (acc : UserStatistics)
    (h2 : ∀ rv ∈ reviews, (lookupKey dates rv.owner.username).isSome = true) :
    reviews.foldlM (processReview dates users) acc ≠ Except.error "key not found" := by
  induction reviews generalizing acc with
  | nil => simp [pure, Except.pure]
  | cons rv t ih =>
    have hne := processReview_ne_keyerror dates users acc rv (h2 rv (by simp))
    rw [List.foldlM_cons]
    cases hp : processReview dates users acc rv with
    | error e =>
      rw [hp] at hne
      intro hcon
      exact hne hcon
    | ok acc' =>
      show List.foldlM (processReview dates users) acc' t ≠ Except.error "key not found"
      exact ih acc' fun rv h => h2 rv (by simp [h])

theorem except_bind_ok {ε α β : Type} (a : α) (f : α → Except ε β) :
    (Except.ok a >>= f) = f a := rfl

theorem except_bind_error {ε α β : Type} (e : ε) (f : α → Except ε β) :
    ((Except.error e : Except ε α) >>= f) = Except.error e := rfl

theorem lookupKey_mem {α : Type} (m : List (String × α)) (k : String) (v : α)
    (h : lookupKey m k = some v) : (k, v) ∈ m := by
  induction m with
  | nil => simp [lookupKey] at h
  | cons p t ih =>
    obtain ⟨k', v'⟩ := p
    by_cases hk : k' = k
    · subst hk
      simp [lookupKey] at h
      simp [h]
    · simp [lookupKey, hk] at h
      simp [ih h]

theorem avg_foldlM : ∀ (stats : UserStatistics) (acc : Stats),
    (∀ p ∈ stats, (lookupKey p.2 "All").isSome = true) →
    stats.foldlM
      (fun (acc : Stats) (p : String × StatsMap) =>
        match lookupKey p.2 "All" with
        | none => Except.error "Failed to get All row"
        | some repo =>
          Except.ok
            { changes := acc.changes + repo.changes
              approvals := acc.approvals + repo.approvals
              comments_made := acc.comments_made + repo.comments_made
              comments_received := acc.comments_received + repo.comments_received
              commit_words := acc.commit_words + repo.commit_words
              patch_sets := acc.patch_sets + repo.patch_sets })
      acc = Except.ok
      { changes := acc.changes + allField stats (fun s => s.changes)
        approvals := acc.approvals + allField stats (fun s => s.approvals)
        comments_made := acc.comments_made + allField stats (fun s => s.comments_made)
        comments_received :=
          acc.comments_received + allField stats (fun s => s.comments_received)
        commit_words := acc.commit_words + allField stats (fun s => s.commit_words)
        patch_sets := acc.patch_sets + allField stats (fun s => s.patch_sets) } := by
  intro stats
  induction stats with
  | nil =>
    intro acc _
    simp [allField, pure, Except.pure]
  | cons p t ih =>
    intro acc hall
    obtain ⟨s, hs⟩ := Option.isSome_iff_exists.mp (hall p (by simp))
    rw [List.foldlM_cons]
    simp only [hs, except_bind_ok]
    rw [ih _ fun q hq => hall q (by simp [hq])]
    simp [allField, cellAt, hs, Stats.mk.injEq]
    omega

theorem get_average_stats_eq (stats : UserStatistics)
    (hne : stats ≠ [])
    (hall : ∀ p ∈ stats, (lookupKey p.2 "All").isSome = true) :
    get_average_stats stats = Except.ok
      { changes := allField stats (fun s => s.changes) / stats.length
        approvals := allField stats (fun s => s.approvals) / stats.length
        comments_made := allField stats (fun s => s.comments_made) / stats.length
        comments_received :=
          allField stats (fun s => s.comments_received) / stats.length
        commit_words := allField stats (fun s => s.commit_words) / stats.length
        patch_sets := allField stats (fun s => s.patch_sets) / stats.length } := by
  unfold get_average_stats
  rw [avg_foldlM stats Stats.new hall]
  have hlen : stats.length ≠ 0 := by
    simpa using fun h => hne (List.length_eq_zero.mp h)
  simp [Stats.new, hlen]

theorem sumNonAll_cons (k : String) (s : Stats) (t : StatsMap) (F : Stats → Nat) :
    sumNonAll ((k, s) :: t) F
      = (if k = "All" then 0 else F s) + sumNonAll t F := by
  by_cases hk : k = "All" <;> simp [sumNonAll, List.filter_cons, hk]

theorem sumNonAll_updateEntry_All (us : StatsMap) (d : Stats) (f : Stats → Stats)
    (F : Stats → Nat) :
    sumNonAll (updateEntry us "All" d f) F = sumNonAll us F := by
  induction us with
  | nil => simp [updateEntry, sumNonAll_cons, sumNonAll]
  | cons p t ih =>
    obtain ⟨k, v⟩ := p
    by_cases hk : k = "All"
    · subst hk
      simp [updateEntry, sumNonAll_cons]
    · simp [updateEntry, hk, sumNonAll_cons, ih]

theorem sumNonAll_updateEntry_ne (us : StatsMap) (k : String) (f : Stats → Stats)
    (F : Stats → Nat) (δ : Nat) (hk : k ≠ "All")
    (hf : ∀ s, F (f s) = F s + δ) (hnew : F Stats.new = 0) :
    sumNonAll (updateEntry us k Stats.new f) F = sumNonAll us F + δ := by
  induction us with
  | nil => simp [updateEntry, sumNonAll_cons, sumNonAll, hk, hf, hnew]
  | cons p t ih =>
    obtain ⟨k', v⟩ := p
    by_cases hk' : k' = k
    · subst hk'
      simp [updateEntry, sumNonAll_cons, hk, hf]
      omega
    · simp [updateEntry, hk', sumNonAll_cons, ih]
      omega

theorem balancedFor_pairUpdate (us : StatsMap) (repo : String) (f : Stats → Stats)
    (F : Stats → Nat) (δ : Nat) (hrepo : repo ≠ "All")
    (hf : ∀ s, F (f s) = F s + δ) (hnew : F Stats.new = 0)
    (hb : balancedFor us F) :
    balancedFor (updateEntry (updateEntry us "All" Stats.new f) repo Stats.new f) F := by
  unfold balancedFor at hb ⊢
  rw [cellAt_updateEntry_ne _ _ _ _ _ (Ne.symm hrepo), cellAt_updateEntry_self,
    sumNonAll_updateEntry_ne _ _ _ _ _ hrepo hf hnew, sumNonAll_updateEntry_All,
    hf, hb]

theorem goodMap_pairUpdate (us : StatsMap) (repo : String) (f : Stats → Stats)
    (d1 d2 d3 d4 d5 d6 : Nat)
    (h1 : ∀ s, (f s).changes = s.changes + d1)
    (h2 : ∀ s, (f s).approvals = s.approvals + d2)
    (h3 : ∀ s, (f s).comments_made = s.comments_made + d3)
    (h4 : ∀ s, (f s).comments_received = s.comments_received + d4)
    (h5 : ∀ s, (f s).commit_words = s.commit_words + d5)
    (h6 : ∀ s, (f s).patch_sets = s.patch_sets + d6)
    (hrepo : repo ≠ "All") (hb : balancedSix us) :
    goodMap (updateEntry (updateEntry us "All" Stats.new f) repo Stats.new f) := by
  obtain ⟨b1, b2, b3, b4, b5, b6⟩ := hb
  refine ⟨?_, ?_, ?_, ?_, ?_, ?_, ?_⟩
  · rw [lookupKey_updateEntry_ne _ _ _ _ _ (Ne.symm hrepo),
      lookupKey_updateEntry_self]
    rfl
  · exact balancedFor_pairUpdate us repo f _ d1 hrepo h1 rfl b1
  · exact balancedFor_pairUpdate us repo f _ d2 hrepo h2 rfl b2
  · exact balancedFor_pairUpdate us repo f _ d3 hrepo h3 rfl b3
  · exact balancedFor_pairUpdate us repo f _ d4 hrepo h4 rfl b4
  · exact balancedFor_pairUpdate us repo f _ d5 hrepo h5 rfl b5
  · exact balancedFor_pairUpdate us repo f _ d6 hrepo h6 rfl b6

theorem balancedSix_nil : balancedSix ([] : StatsMap) :=
  ⟨rfl, rfl, rfl, rfl, rfl, rfl⟩

theorem goodStats_updateUser (st : UserStatistics) (u : String)
    (g : StatsMap → StatsMap)
    (hst : ∀ p ∈ st, goodMap p.2)
    (hg : ∀ us, balancedSix us → goodMap (g us)) :
    ∀ p ∈ updateEntry st u [] g, goodMap p.2 := by
  induction st with
  | nil =>
    intro p hp
    simp [updateEntry] at hp
    rw [hp]
    exact hg [] balancedSix_nil
  | cons q t ih =>
    obtain ⟨k', v⟩ := q
    by_cases hk : k' = u
    · subst hk
      intro p hp
      simp [updateEntry] at hp
      rcases hp with hp | hp
      · rw [hp]
        exact hg v (hst (k', v) (by simp)).2
      · exact hst p (by simp [hp])
    · intro p hp
      simp only [updateEntry, hk, if_false, List.mem_cons] at hp
      rcases hp with hp | hp
      · exact hst p (by simp [hp])
      · exact ih (fun q hq => hst q (by simp [hq])) p hp

theorem goodStats_commentsFold (repo : String) (hrepo : repo ≠ "All") :
    ∀ (made : List (String × Nat)) (st : UserStatistics),
    (∀ p ∈ st, goodMap p.2) →
    ∀ p ∈ made.foldl (addCommentsFor repo) st, goodMap p.2 := by
  intro made
  induction made with
  | nil => exact fun st hst => hst
  | cons q t ih =>
    intro st hst
    rw [List.foldl_cons]
    apply ih
    apply goodStats_updateUser st q.1 _ hst
    intro us hb
    exact goodMap_pairUpdate us repo _ 0 0 q.2 0 0 0
      (fun s => rfl) (fun s => rfl) (fun s => rfl) (fun s => rfl)
      (fun s => rfl) (fun s => rfl) hrepo hb

theorem goodStats_approvalsFold (repo : String) (hrepo : repo ≠ "All") :
    ∀ (approvers : List String) (st : UserStatistics),
    (∀ p ∈ st, goodMap p.2) →
    ∀ p ∈ approvers.foldl (addApprovalFor repo) st, goodMap p.2 := by
  intro approvers
  induction approvers with
  | nil => exact fun st hst => hst
  | cons u t ih =>
    intro st hst
    rw [List.foldl_cons]
    apply ih
    apply goodStats_updateUser st u _ hst
    intro us hb
    exact goodMap_pairUpdate us repo _ 0 1 0 0 0 0
      (fun s => rfl) (fun s => rfl) (fun s => rfl) (fun s => rfl)
      (fun s => rfl) (fun s => rfl) hrepo hb

theorem goodStats_ownerUpdate (st : UserStatistics) (o repo : String)
    (received patches words : Nat) (hrepo : repo ≠ "All")
    (hst : ∀ p ∈ st, goodMap p.2) :
    ∀ p ∈ updateEntry st o []
      (fun us => add_stats (add_stats us "All" received patches words)
        repo received patches words), goodMap p.2 := by
  apply goodStats_updateUser st o _ hst
  intro us hb
  exact goodMap_pairUpdate us repo _ 1 0 0 received words patches
    (fun s => rfl) (fun s => rfl) (fun s => rfl) (fun s => rfl)
    (fun s => rfl) (fun s => rfl) hrepo hb

theorem goodStats_processReview (dates : List (String × (Int × Int)))
    (users : List String) (st st' : UserStatistics) (r : Review)
    (hrepo : r.repository_name ≠ "All")
    (hst : ∀ p ∈ st, goodMap p.2)
    (hok : processReview dates users st r = Except.ok st') :
    ∀ p ∈ st', goodMap p.2 := by
  cases hd : lookupKey dates r.owner.username with
  | none =>
    rw [show processReview dates users st r = Except.error "key not found" from
      by simp [processReview, hd]] at hok
    simp at hok
  | some ft =>
    obtain ⟨fromTs, toTs⟩ := ft
    cases hw : r.is_within_date fromTs toTs with
    | error e =>
      rw [show processReview dates users st r = Except.error e from
        by simp [processReview, hd, hw]] at hok
      simp at hok
    | ok b =>
      cases b with
      | false =>
        rw [skip_of_within_false dates users st r fromTs toTs hd hw] at hok
        injection hok with h
        rw [← h]
        exact hst
      | true =>
        obtain ⟨approvers, hap⟩ := approvals_ok_of_within r fromTs toTs true users hw
        rw [processReview_eq dates users st r fromTs toTs approvers hd hw hap] at hok
        injection hok with h
        rw [← h]
        apply goodStats_approvalsFold _ hrepo
        apply goodStats_commentsFold _ hrepo
        exact goodStats_ownerUpdate st r.owner.username r.repository_name
          r.comments_received r.patch_set_count r.commit_message_words hrepo hst

theorem goodStats_collect_aux (dates : List (String × (Int × Int)))
    (users : List String) :
    ∀ (reviews : List Review) (acc st : UserStatistics),
    (∀ r ∈ reviews, r.repository_name ≠ "All") →
    (∀ p ∈ acc, goodMap p.2) →
    reviews.foldlM (processReview dates users) acc = Except.ok st →
    ∀ p ∈ st, goodMap p.2 := by
  intro reviews
  induction reviews with
  | nil =>
    intro acc st _ hacc hok
    simp [pure, Except.pure] at hok
    rw [← hok]
    exact hacc
  | cons rv t ih =>
    intro acc st hrepo hacc hok
    rw [List.foldlM_cons] at hok
    cases hp : processReview dates users acc rv with
    | error e =>
      rw [hp, except_bind_error] at hok
      simp at hok
    | ok acc' =>
      rw [hp, except_bind_ok] at hok
      exact ih acc' st (fun q hq => hrepo q (by simp [hq]))
        (goodStats_processReview dates users acc acc' rv (hrepo rv (by simp))
          hacc hp) hok

/-! ### Claim theorems -/

/-- Claim C1: for every Review whose owner is configured, whose patch-set
list is non-empty, and whose last patch set has an approvals collection, the
Review passes the eligibility filter iff the last patch set holds a "SUBM"
approval with `from_ts ≤ granted_on ≤ to_ts` (both bounds inclusive); a
Review failing the filter leaves the statistics mapping unchanged, so it
contributes zero to every counter of every user. -/
theorem claim_C1 (dates : List (String × (Int × Int))) (users : List String)
    (st : UserStatistics) (r : Review) (fromTs toTs : Int)
    (ps : PatchSet) (aps : List Approval)
    (hd : lookupKey dates r.owner.username = some (fromTs, toTs))
    (hlast : r.patch_sets.getLast? = some ps)
    (hap : ps.approvals = some aps) :
    (r.is_within_date fromTs toTs = Except.ok true ↔
      ∃ a ∈ aps, a.review_type = "SUBM"
        ∧ fromTs ≤ a.granted_on ∧ a.granted_on ≤ toTs)
    ∧ (r.is_within_date fromTs toTs = Except.ok false →
        processReview dates users st r = Except.ok st) :=
  ⟨within_true_iff r ps aps fromTs toTs hlast hap,
    fun hw => skip_of_within_false dates users st r fromTs toTs hd hw⟩

theorem claim_C1_witness :
    ((rOut.is_within_date 0 10 = Except.ok true ↔
      ∃ a ∈ [apSubm 50], a.review_type = "SUBM"
        ∧ (0 : Int) ≤ a.granted_on ∧ a.granted_on ≤ 10)
    ∧ processReview dmap umap [] rOut = Except.ok []) :=
  ⟨(claim_C1 dmap umap [] rOut 0 10 ⟨some [apSubm 50], none⟩ [apSubm 50]
      (by rfl) (by rfl) (by rfl)).1,
   (claim_C1 dmap umap [] rOut 0 10 ⟨some [apSubm 50], none⟩ [apSubm 50]
      (by rfl) (by rfl) (by rfl)).2 (by rfl)⟩

/-- Claim C2: aggregating an eligible Review gives the owner one unit
increment of `changes` for each of the keys "All" and the review's
repository, and adds the total patch-set comment count, the patch-set count
and the commit-message word count to `comments_received`, `patch_sets` and
`commit_words` at those same keys. -/
theorem claim_C2 (dates : List (String × (Int × Int))) (users : List String)
    (st : UserStatistics) (r : Review) (fromTs toTs : Int)
    (st' : UserStatistics)
    (hd : lookupKey dates r.owner.username = some (fromTs, toTs))
    (hw : r.is_within_date fromTs toTs = Except.ok true)
    (hok : processReview dates users st r = Except.ok st') (k : String) :
    (cellAt2 st' r.owner.username k).changes
        = (cellAt2 st r.owner.username k).changes
          + (ind (k = "All") + ind (k = r.repository_name))
    ∧ (cellAt2 st' r.owner.username k).comments_received
        = (cellAt2 st r.owner.username k).comments_received
          + (ind (k = "All") + ind (k = r.repository_name)) * r.comments_received
    ∧ (cellAt2 st' r.owner.username k).patch_sets
        = (cellAt2 st r.owner.username k).patch_sets
          + (ind (k = "All") + ind (k = r.repository_name)) * r.patch_set_count
    ∧ (cellAt2 st' r.owner.username k).commit_words
        = (cellAt2 st r.owner.username k).commit_words
          + (ind (k = "All") + ind (k = r.repository_name))
            * r.commit_message_words := by
  obtain ⟨approvers, hap⟩ := approvals_ok_of_within r fromTs toTs true users hw
  rw [processReview_eq dates users st r fromTs toTs approvers hd hw hap] at hok
  injection hok with h
  rw [← h, cellAt2_approvalsFold,
    cellAt2_commentsFold _ _ _ _ _ (nodupKeys_comments_made r users),
    cellAt2_ownerUpdate]
  refine ⟨?_, ?_, ?_, ?_⟩ <;> simp [ind]

theorem claim_C2_witness :
    (cellAt2 ((processReview dmap umap [] rMain).toOption.getD []) "alice" "proj").changes
        = (cellAt2 [] "alice" "proj").changes
          + (ind (("proj" : String) = "All") + ind (("proj" : String) = rMain.repository_name))
    ∧ (cellAt2 ((processReview dmap umap [] rMain).toOption.getD []) "alice" "proj").comments_received
        = (cellAt2 [] "alice" "proj").comments_received
          + (ind (("proj" : String) = "All") + ind (("proj" : String) = rMain.repository_name))
            * rMain.comments_received
    ∧ (cellAt2 ((processReview dmap umap [] rMain).toOption.getD []) "alice" "proj").patch_sets
        = (cellAt2 [] "alice" "proj").patch_sets
          + (ind (("proj" : String) = "All") + ind (("proj" : String) = rMain.repository_name))
            * rMain.patch_set_count
    ∧ (cellAt2 ((processReview dmap umap [] rMain).toOption.getD []) "alice" "proj").commit_words
        = (cellAt2 [] "alice" "proj").commit_words
          + (ind (("proj" : String) = "All") + ind (("proj" : String) = rMain.repository_name))
            * rMain.commit_message_words :=
  claim_C2 dmap umap [] rMain 0 10
    ((processReview dmap umap [] rMain).toOption.getD [])
    (by rfl) (by rfl) (by rfl) "proj"

/-- Claim C5: for a review under consideration whose owner is configured,
a last patch set with no approvals collection at all aborts the run with the
approval-access failure, while a present approvals collection with no
in-range "SUBM" entry is a silent skip leaving the mapping unchanged. -/
theorem claim_C5 (dates : List (String × (Int × Int))) (users : List String)
    (st : UserStatistics) (r : Review) (fromTs toTs : Int) (ps : PatchSet)
    (hd : lookupKey dates r.owner.username = some (fromTs, toTs))
    (hlast : r.patch_sets.getLast? = some ps) :
    (ps.approvals = none →
      processReview dates users st r
        = Except.error "Failed to get approval change")
    ∧ (∀ aps, ps.approvals = some aps →
        (∀ a ∈ aps, ¬(a.review_type = "SUBM"
          ∧ fromTs ≤ a.granted_on ∧ a.granted_on ≤ toTs)) →
        processReview dates users st r = Except.ok st) := by
  constructor
  · intro hnone
    simp [processReview, hd, Review.is_within_date, hlast, hnone]
  · intro aps hsome hno
    have hfalse : r.is_within_date fromTs toTs = Except.ok false := by
      rw [is_within_date_some r ps aps fromTs toTs hlast hsome]
      simp only [Except.ok.injEq]
      rw [List.any_eq_false]
      intro a ha hcon
      apply hno a ha
      simpa [Bool.and_eq_true, beq_iff_eq, decide_eq_true_iff, and_assoc]
        using hcon
    exact skip_of_within_false dates users st r fromTs toTs hd hfalse

theorem claim_C5_witness :
    processReview dmap umap [] rNoAps
        = Except.error "Failed to get approval change"
    ∧ processReview dmap umap [] rOut = Except.ok [] :=
  ⟨(claim_C5 dmap umap [] rNoAps 0 10 ⟨none, none⟩ (by rfl) (by rfl)).1 (by rfl),
   (claim_C5 dmap umap [] rOut 0 10 ⟨some [apSubm 50], none⟩ (by rfl) (by rfl)).2
     [apSubm 50] (by rfl) (by decide)⟩

/-- Claim C7: the commenter update path modifies only `comments_made` and
the approver update path modifies only `approvals`: for every user and every
repository key, `changes`, `comments_received`, `patch_sets` and
`commit_words` (and the respective other counter) are unchanged by those
paths, so `changes` counts only owned reviews. -/
theorem claim_C7 (r : Review) (users : List String) (st : UserStatistics)
    (repo : String) (approvers : List String) (u k : String) :
    ((cellAt2 ((r.comments_made users).foldl (addCommentsFor repo) st) u k).changes
        = (cellAt2 st u k).changes
      ∧ (cellAt2 ((r.comments_made users).foldl (addCommentsFor repo) st) u k).approvals
        = (cellAt2 st u k).approvals
      ∧ (cellAt2 ((r.comments_made users).foldl (addCommentsFor repo) st) u k).comments_received
        = (cellAt2 st u k).comments_received
      ∧ (cellAt2 ((r.comments_made users).foldl (addCommentsFor repo) st) u k).commit_words
        = (cellAt2 st u k).commit_words
      ∧ (cellAt2 ((r.comments_made users).foldl (addCommentsFor repo) st) u k).patch_sets
        = (cellAt2 st u k).patch_sets)
    ∧ ((cellAt2 (approvers.foldl (addApprovalFor repo) st) u k).changes
        = (cellAt2 st u k).changes
      ∧ (cellAt2 (approvers.foldl (addApprovalFor repo) st) u k).comments_made
        = (cellAt2 st u k).comments_made
      ∧ (cellAt2 (approvers.foldl (addApprovalFor repo) st) u k).comments_received
        = (cellAt2 st u k).comments_received
      ∧ (cellAt2 (approvers.foldl (addApprovalFor repo) st) u k).commit_words
        = (cellAt2 st u k).commit_words
      ∧ (cellAt2 (approvers.foldl (addApprovalFor repo) st) u k).patch_sets
        = (cellAt2 st u k).patch_sets) := by
  rw [cellAt2_commentsFold _ _ _ _ _ (nodupKeys_comments_made r users),
    cellAt2_approvalsFold]
  exact ⟨⟨rfl, rfl, rfl, rfl, rfl⟩, ⟨rfl, rfl, rfl, rfl, rfl⟩⟩

/-- Claim C9: when every input review's owner is in the configured user-date
mapping, the date lookup never aborts the run; a review owned by an
unconfigured user aborts the per-review step at the unchecked lookup instead
of being skipped. -/
theorem claim_C9 (dates : List (String × (Int × Int))) (users : List String)
    (st : UserStatistics) (r : Review) (reviews : List Review)
    (h1 : lookupKey dates r.owner.username = none)
    (h2 : ∀ rv ∈ reviews, (lookupKey dates rv.owner.username).isSome = true) :
    processReview dates users st r = Except.error "key not found"
    ∧ collect_stats dates users reviews ≠ Except.error "key not found" :=
  ⟨by simp [processReview, h1],
    collect_stats_foldlM_ne_keyerror dates users reviews [] h2⟩

theorem claim_C9_witness :
    processReview dmap umap [] rCarolOwned = Except.error "key not found"
    ∧ collect_stats dmap umap [rMain] ≠ Except.error "key not found" :=
  claim_C9 dmap umap [] rCarolOwned [rMain] (by rfl) (by decide)

/-- Claim C10: `comments_received` is exactly the total length of the
patch-set comment lists, and the review-level `comments` field contributes
to no statistic: two reviews differing only in that field aggregate
identically. -/
theorem claim_C10 (r : Review) (cs : List Comment)
    (dates : List (String × (Int × Int))) (users : List String)
    (st : UserStatistics) :
    r.comments_received
        = (r.patch_sets.map fun p => (p.comments.getD []).length).sum
    ∧ processReview dates users st { r with comments := cs }
        = processReview dates users st r := by
  constructor
  · simp only [Review.comments_received]
    rw [foldl_add_eq_sum]
    simp
  · rfl

/-- Counterexample to claim C3 as stated: the last patch set of `rDup`
holds two identical "Code-Review" value-"2" approval records by bob, and
aggregating the single review credits bob with 2 approvals, not exactly 1
(bob's cell started at 0). -/
theorem claim_C3_counterexample :
    rDup.approvals umap = Except.ok ["bob", "bob"]
    ∧ processReview dmap umap [] rDup
        = Except.ok ((processReview dmap umap [] rDup).toOption.getD [])
    ∧ (cellAt2 ((processReview dmap umap [] rDup).toOption.getD [])
        "bob" "All").approvals = 2
    ∧ (cellAt2 ((processReview dmap umap [] rDup).toOption.getD [])
        "bob" "All").approvals
      ≠ (cellAt2 [] "bob" "All").approvals + 1 :=
  ⟨rfl, rfl, rfl, by decide⟩

/-- Claim C3 (amended): aggregating an eligible Review increments a
configured user V's `approvals` once per "Code-Review" value-"2" approval
record by V on the last patch set — so duplicate records by the same user
count multiply — as one unit increment at the key "All" and one at the
review's repository key. -/
theorem claim_C3_amended (dates : List (String × (Int × Int)))
    (users : List String) (st : UserStatistics) (r : Review)
    (fromTs toTs : Int) (approvers : List String) (st' : UserStatistics)
    (hd : lookupKey dates r.owner.username = some (fromTs, toTs))
    (hw : r.is_within_date fromTs toTs = Except.ok true)
    (hap : r.approvals users = Except.ok approvers)
    (hok : processReview dates users st r = Except.ok st') (v k : String) :
    (cellAt2 st' v k).approvals
      = (cellAt2 st v k).approvals
        + (ind (k = "All") + ind (k = r.repository_name))
          * approvers.count v := by
  rw [processReview_eq dates users st r fromTs toTs approvers hd hw hap] at hok
  injection hok with h
  rw [← h, cellAt2_approvalsFold,
    cellAt2_commentsFold _ _ _ _ _ (nodupKeys_comments_made r users),
    cellAt2_ownerUpdate]

theorem claim_C3_witness :
    (cellAt2 ((processReview dmap umap [] rMain).toOption.getD [])
        "bob" "All").approvals
      = (cellAt2 [] "bob" "All").approvals
        + (ind (("All" : String) = "All")
            + ind (("All" : String) = rMain.repository_name))
          * (["bob"].count "bob") :=
  claim_C3_amended dmap umap [] rMain 0 10 ["bob"]
    ((processReview dmap umap [] rMain).toOption.getD [])
    (by rfl) (by rfl) (by rfl) (by rfl) "bob" "All"

/-- Claim C4: aggregating an eligible Review adds, for every user V and key
k, one `comments_made` unit per surviving patch-set comment by V (surviving:
V configured and V not the review owner), at each of the keys "All" and the
review's repository; excluded comments contribute nothing. -/
theorem claim_C4 (dates : List (String × (Int × Int))) (users : List String)
    (st : UserStatistics) (r : Review) (fromTs toTs : Int)
    (st' : UserStatistics)
    (hd : lookupKey dates r.owner.username = some (fromTs, toTs))
    (hw : r.is_within_date fromTs toTs = Except.ok true)
    (hok : processReview dates users st r = Except.ok st') (v k : String) :
    (cellAt2 st' v k).comments_made
      = (cellAt2 st v k).comments_made
        + (ind (k = "All") + ind (k = r.repository_name))
          * madeCount r users v := by
  obtain ⟨approvers, hap⟩ := approvals_ok_of_within r fromTs toTs true users hw
  rw [processReview_eq dates users st r fromTs toTs approvers hd hw hap] at hok
  injection hok with h
  rw [← h, cellAt2_approvalsFold,
    cellAt2_commentsFold _ _ _ _ _ (nodupKeys_comments_made r users),
    cellAt2_ownerUpdate, lookupKey_comments_made]

theorem claim_C4_witness :
    (cellAt2 ((processReview dmap umap [] rMain).toOption.getD [])
        "bob" "proj").comments_made
      = (cellAt2 [] "bob" "proj").comments_made
        + (ind (("proj" : String) = "All")
            + ind (("proj" : String) = rMain.repository_name))
          * madeCount rMain umap "bob" :=
  claim_C4 dmap umap [] rMain 0 10
    ((processReview dmap umap [] rMain).toOption.getD [])
    (by rfl) (by rfl) (by rfl) "bob" "proj"

/-- Claim C6: for a non-empty mapping in which every user has an "All" cell,
each counter of the Average row is the truncating integer quotient of that
counter summed over all users' "All" cells by the number of users; with zero
users the division by zero is fatal, not recoverable. -/
theorem claim_C6 (stats : UserStatistics) (hne : stats ≠ [])
    (hall : ∀ p ∈ stats, (lookupKey p.2 "All").isSome = true) :
    get_average_stats stats = Except.ok
      { changes := allField stats (fun s => s.changes) / stats.length
        approvals := allField stats (fun s => s.approvals) / stats.length
        comments_made := allField stats (fun s => s.comments_made) / stats.length
        comments_received :=
          allField stats (fun s => s.comments_received) / stats.length
        commit_words := allField stats (fun s => s.commit_words) / stats.length
        patch_sets := allField stats (fun s => s.patch_sets) / stats.length }
    ∧ get_average_stats [] = Except.error "attempt to divide by zero" :=
  ⟨get_average_stats_eq stats hne hall, rfl⟩

theorem claim_C6_witness :
    get_average_stats c6stats = Except.ok
      { changes := allField c6stats (fun s => s.changes) / c6stats.length
        approvals := allField c6stats (fun s => s.approvals) / c6stats.length
        comments_made := allField c6stats (fun s => s.comments_made) / c6stats.length
        comments_received :=
          allField c6stats (fun s => s.comments_received) / c6stats.length
        commit_words := allField c6stats (fun s => s.commit_words) / c6stats.length
        patch_sets := allField c6stats (fun s => s.patch_sets) / c6stats.length }
    ∧ get_average_stats [] = Except.error "attempt to divide by zero" :=
  claim_C6 c6stats (by decide) (by decide)

/-- Counterexample to claim C8 as stated: a review in a repository literally
named "All" sends both owner updates to the same cell: alice's "All" cell
ends with 2 changes while the sum over her non-"All" cells is 0, so the
"All"-equals-sum invariant fails on this input. -/
theorem claim_C8_counterexample :
    collect_stats dmap umap [rAllProj]
      = Except.ok [("alice", [("All", ⟨2, 0, 0, 0, 8, 2⟩)])]
    ∧ (cellAt [("All", (⟨2, 0, 0, 0, 8, 2⟩ : Stats))] "All").changes = 2
    ∧ sumNonAll [("All", (⟨2, 0, 0, 0, 8, 2⟩ : Stats))] (fun s => s.changes) = 0 :=
  ⟨rfl, rfl, rfl⟩

/-- Claim C8 (amended): after a successful `collect_stats` run over reviews
none of which lives in a repository literally named "All", every user
present in the result has an "All" entry, and each counter of that entry
equals the counter summed over the user's non-"All" cells — regardless of
the role (owner, commenter, approver) that inserted the user. (The
amendment excludes a repository actually named "All", where the code merges
the two owner updates into one cell.) -/
theorem claim_C8_amended (dates : List (String × (Int × Int)))
    (users : List String) (reviews : List Review) (st : UserStatistics)
    (hrepo : ∀ r ∈ reviews, r.repository_name ≠ "All")
    (hok : collect_stats dates users reviews = Except.ok st)
    (u : String) (us : StatsMap) (hu : lookupKey st u = some us) :
    (lookupKey us "All").isSome = true
    ∧ (cellAt us "All").changes = sumNonAll us (fun s => s.changes)
    ∧ (cellAt us "All").approvals = sumNonAll us (fun s => s.approvals)
    ∧ (cellAt us "All").comments_made = sumNonAll us (fun s => s.comments_made)
    ∧ (cellAt us "All").comments_received
        = sumNonAll us (fun s => s.comments_received)
    ∧ (cellAt us "All").commit_words = sumNonAll us (fun s => s.commit_words)
    ∧ (cellAt us "All").patch_sets = sumNonAll us (fun s => s.patch_sets) :=
  goodStats_collect_aux dates users reviews [] st hrepo (by simp) hok
    (u, us) (lookupKey_mem st u us hu)

theorem claim_C8_witness :
    (lookupKey c8us "All").isSome = true
    ∧ (cellAt c8us "All").changes = sumNonAll c8us (fun s => s.changes)
    ∧ (cellAt c8us "All").approvals = sumNonAll c8us (fun s => s.approvals)
    ∧ (cellAt c8us "All").comments_made = sumNonAll c8us (fun s => s.comments_made)
    ∧ (cellAt c8us "All").comments_received
        = sumNonAll c8us (fun s => s.comments_received)
    ∧ (cellAt c8us "All").commit_words = sumNonAll c8us (fun s => s.commit_words)
    ∧ (cellAt c8us "All").patch_sets = sumNonAll c8us (fun s => s.patch_sets) :=
  claim_C8_amended dmap umap [rMain] c8stats (by decide) (by rfl) "alice"
    c8us (by rfl)

end GerritStats
